import Mathlib

/-
Verification of the workspace background engine (src/background.js).

The JavaScript source is shallowly embedded: JS objects keyed by integer ids
become association lists `List (Nat × Workspace)` kept in JS key-iteration
order (ascending integer keys); `undefined` fields become `Option`; JS
truthiness tests are modelled explicitly where the source relies on them;
platform effects (tab queries, window focus/creation) become explicit
parameters of the handler functions, which return the response sent together
with the store after the read-modify-write.
-/

/-- A browser tab as consumed by the background script: its url, page title,
whether it is the active tab, its index in the window, and its tab-group id
(negative when ungrouped). -/
structure Tab where
  url : String
  title : String
  active : Bool
  index : Nat
  groupId : Int
deriving Repr, DecidableEq

/-- A tab group as returned by the tabGroups query. -/
structure TabGroup where
  id : Int
  title : String
  color : String
  collapsed : Bool
deriving Repr, DecidableEq

/-- A captured contiguous range of grouped tabs. The JS field named end is a
Lean keyword and is rendered here as stop. -/
structure GroupRange where
  start : Nat
  stop : Nat
  title : String
  color : String
  collapsed : Bool
deriving Repr, DecidableEq

/-- A workspace record as stored under its id. `customTitle` and `order` are
absent (undefined) on freshly saved records, hence `Option`. -/
structure Workspace where
  id : Nat
  windowId : Option Int
  tabs : List String
  title : String
  customTitle : Option String
  order : Option Nat
  groupRanges : List GroupRange
deriving Repr, DecidableEq

/-- The persisted store: workspace records keyed by id plus the id counter.
JS objects iterate integer-like keys in ascending order; the association list
is kept in that order. -/
structure Store where
  workspaces : List (Nat × Workspace)
  nextId : Nat
deriving Repr, DecidableEq

/-- Response shapes sent through sendResponse. -/
inductive Resp where
  | ok
  | okWorkspace (workspace : Workspace)
  | okMessage (message : String) (windowId : Option Int)
  | err (error : String)
deriving Repr, DecidableEq

/-- JS property read `workspaces[id]`: `none` models `undefined`. -/
def lookupWs (m : List (Nat × Workspace)) (k : Nat) : Option Workspace :=
  (m.find? (fun p => p.1 == k)).map (fun p => p.2)

/-- The keys of the workspace map, in iteration order. -/
def keysOf (m : List (Nat × Workspace)) : List Nat :=
  m.map (fun p => p.1)

/- ===== URL SANITIZER (src/background.js, sanitizeUrls) ===== -/

/-- JS String.prototype.startsWith, modelled structurally over the character
list so that it evaluates inside the kernel. -/
def strStartsWith (s pre : String) : Bool :=
  pre.data.isPrefixOf s.data

/-- sanitizeUrls: allow urls starting with http:// or https:// or exactly
about:blank; anything else is replaced with about:blank. -/
def sanitizeUrls (urls : List String) : List String :=
  urls.map (fun url =>
    if strStartsWith url "http://" || strStartsWith url "https://" || url == "about:blank" then
      url
    else
      "about:blank")

/-- The allow-list predicate of the claim, stated independently. -/
def allowedUrl (url : String) : Bool :=
  strStartsWith url "http://" || strStartsWith url "https://" || url == "about:blank"

/- ===== STORE OPERATIONS (JS object mutation on the workspaces map) ===== -/

/-- JS assignment `workspaces[k] = v` on an object with integer-like keys:
an existing key keeps its position, a new key is inserted in ascending key
order (JS integer-key iteration order). -/
def setKey : List (Nat × Workspace) → Nat → Workspace → List (Nat × Workspace)
  | [], k, v => [(k, v)]
  | (k0, v0) :: rest, k, v =>
    if k < k0 then (k, v) :: (k0, v0) :: rest
    else if k == k0 then (k, v) :: rest
    else (k0, v0) :: setKey rest k v

/-- JS `delete workspaces[k]`. -/
def removeKey (m : List (Nat × Workspace)) (k : Nat) : List (Nat × Workspace) :=
  m.filter (fun p => !(p.1 == k))

/-- Math.min over a nonempty list of indices (0 for the unreachable empty case). -/
def natMin : List Nat → Nat
  | [] => 0
  | h :: t => t.foldl Nat.min h

/-- Math.max over a nonempty list of indices (0 for the unreachable empty case). -/
def natMax : List Nat → Nat
  | [] => 0
  | h :: t => t.foldl Nat.max h

/-- The group-range capture loop shared by handleSaveWindow and
updateWorkspaceForWindow: for each queried group, collect the tabs carrying
its id and record the min..max index range with the group decorations.
JS `group.title || ""` is the identity on strings and is dropped. -/
def computeGroupRanges (tabs : List Tab) (groups : List TabGroup) : List GroupRange :=
  groups.foldl
    (fun acc group =>
      let groupTabs := tabs.filter (fun tab => tab.groupId == group.id)
      if groupTabs.isEmpty then acc
      else
        let indices := groupTabs.map (fun tab => tab.index)
        acc ++ [{ start := natMin indices, stop := natMax indices,
                  title := group.title, color := group.color,
                  collapsed := group.collapsed }])
    []

/-- JS `activeTab && activeTab.title ? activeTab.title : ""` (save handler). -/
def jsTitleOrEmpty : Option Tab → String
  | none => ""
  | some tab => if tab.title == "" then "" else tab.title

/-- JS `activeTab ? activeTab.title : ""` (reconciler). -/
def jsTabTitle : Option Tab → String
  | none => ""
  | some tab => tab.title

/-- JS truthiness of a nullable window id (`if (workspace.windowId)`). -/
def jsIntTruthy : Option Int → Bool
  | none => false
  | some n => n != 0

/- ===== WORKSPACE RECONCILER (src/background.js, updateWorkspaceForWindow) ===== -/

/-- updateWorkspaceForWindow: with an empty live tab list do nothing;
otherwise pick the active tab (falling back to the last tab), capture group
ranges, and for every workspace bound to this window overwrite tabs and
groupRanges, updating title only when no custom title is set. The tab-group
query is passed in as `groups` (empty when the platform lacks tabGroups). -/
def updateWorkspaceForWindow (workspaces : List (Nat × Workspace)) (winId : Int)
    (tabs : List Tab) (groups : List TabGroup) : List (Nat × Workspace) :=
  if tabs.isEmpty then workspaces
  else
    let activeTab := (tabs.find? (fun tab => tab.active)).orElse (fun _ => tabs.getLast?)
    let groupRanges := computeGroupRanges tabs groups
    workspaces.map (fun p =>
      if p.2.windowId == some winId then
        (p.1,
          { p.2 with
            tabs := tabs.map (fun tab => tab.url),
            groupRanges := groupRanges,
            title := if p.2.customTitle == none then jsTabTitle activeTab else p.2.title })
      else p)

/- ===== LIFECYCLE HANDLERS (src/background.js, message handlers) ===== -/

/-- handleSaveWindow: `tabs` and `groups` are the platform query results for
the window. An empty tab list fails; otherwise a record is built with the
active tab (falling back to the FIRST tab, `tabs[0]`) as representative,
stored under nextId, and nextId is bumped. -/
def handleSaveWindow (windowId : Int) (tabs : List Tab) (groups : List TabGroup)
    (s : Store) : Resp × Store :=
  if tabs.isEmpty then (Resp.err "Window has no tabs.", s)
  else
    let groupRanges := computeGroupRanges tabs groups
    let activeTab := (tabs.find? (fun tab => tab.active)).orElse (fun _ => tabs.head?)
    let newWorkspace : Workspace :=
      { id := s.nextId,
        windowId := some windowId,
        tabs := tabs.map (fun tab => tab.url),
        title := jsTitleOrEmpty activeTab,
        customTitle := none,
        order := none,
        groupRanges := groupRanges }
    (Resp.okWorkspace newWorkspace,
     ⟨setKey s.workspaces s.nextId newWorkspace, s.nextId + 1⟩)

/-- handleOpenWorkspace: `focusOk` models whether the platform focus call on
the stored window id succeeds; `newWindowId` the id of the window the
platform would create. On the focus path the store is not written; on the
recreate path the workspace is rebound to the new window id and persisted. -/
def handleOpenWorkspace (workspaceId : Nat) (focusOk : Bool) (newWindowId : Int)
    (s : Store) : Resp × Store :=
  match lookupWs s.workspaces workspaceId with
  | none => (Resp.err "Workspace not found.", s)
  | some workspace =>
    if jsIntTruthy workspace.windowId && focusOk then
      (Resp.okMessage "Window focused." none, s)
    else
      (Resp.okMessage "New window opened." (some newWindowId),
       ⟨setKey s.workspaces workspaceId { workspace with windowId := some newWindowId },
        s.nextId⟩)

/-- handleUnsaveWorkspace: delete the record by id, or fail when absent. -/
def handleUnsaveWorkspace (workspaceId : Nat) (s : Store) : Resp × Store :=
  match lookupWs s.workspaces workspaceId with
  | none => (Resp.err "Workspace not found.", s)
  | some _ => (Resp.ok, ⟨removeKey s.workspaces workspaceId, s.nextId⟩)

/-- handleRenameWorkspace: set customTitle and title to the supplied string
(the window-title push has no store effect), or fail when absent. -/
def handleRenameWorkspace (workspaceId : Nat) (newTitle : String) (s : Store) : Resp × Store :=
  match lookupWs s.workspaces workspaceId with
  | none => (Resp.err "Workspace not found.", s)
  | some ws =>
    (Resp.ok,
     ⟨setKey s.workspaces workspaceId { ws with customTitle := some newTitle, title := newTitle },
      s.nextId⟩)

/-- First loop of handleUpdateOrder: `workspaces[wsId].order = index` when the
id is present, a no-op otherwise. -/
def setOrderForId (m : List (Nat × Workspace)) (wsId : Nat) (idx : Nat) : List (Nat × Workspace) :=
  m.map (fun p => if p.1 == wsId then (p.1, { p.2 with order := some idx }) else p)

/-- `newOrder.forEach((wsId, index) => ...)`, carrying the running index. -/
def applyListedOrders : List (Nat × Workspace) → List Nat → Nat → List (Nat × Workspace)
  | m, [], _ => m
  | m, wsId :: rest, idx => applyListedOrders (setOrderForId m wsId idx) rest (idx + 1)

/-- Second loop of handleUpdateOrder: walk the keys in iteration order and
give every id not mentioned in newOrder the next sequential order value. -/
def assignUnlisted (newOrder : List Nat) : List (Nat × Workspace) → Nat → List (Nat × Workspace)
  | [], _ => []
  | (k, ws) :: rest, counter =>
    if newOrder.contains k then (k, ws) :: assignUnlisted newOrder rest counter
    else (k, { ws with order := some counter }) :: assignUnlisted newOrder rest (counter + 1)

/-- handleUpdateOrder: listed ids get `order = index`; every other workspace
gets the next sequential values starting at `newOrder.length`. -/
def handleUpdateOrder (newOrder : List Nat) (s : Store) : Resp × Store :=
  (Resp.ok,
   ⟨assignUnlisted newOrder (applyListedOrders s.workspaces newOrder 0) newOrder.length,
    s.nextId⟩)

/- ===== DEBOUNCED SCHEDULER (src/background.js, scheduleWorkspaceUpdate) ===== -/

/-- The debounce quiet period in milliseconds. -/
def DEBOUNCE_DELAY : Nat := 800

/-- In-memory scheduler state: the pending window ids (a set in insertion
order, as a JS Set iterates) and the armed timer, recorded as the absolute
time at which it would fire. -/
structure SchedState where
  pendingUpdates : List Int
  updateTimer : Option Nat
deriving Repr, DecidableEq

/-- JS `Set.prototype.add`: append unless already present. -/
def insertPending (pending : List Int) (w : Int) : List Int :=
  if pending.contains w then pending else pending ++ [w]

/-- scheduleWorkspaceUpdate at absolute time `now`: an absent (`none`) or
negative window id is a no-op; otherwise the id joins the pending set, any
armed timer is cancelled, and a fresh timer is armed for now + 800. -/
def scheduleWorkspaceUpdate (windowId : Option Int) (now : Nat) (st : SchedState) : SchedState :=
  match windowId with
  | none => st
  | some w =>
    if w < 0 then st
    else { pendingUpdates := insertPending st.pendingUpdates w,
           updateTimer := some (now + DEBOUNCE_DELAY) }

/-- One timed notification: if the armed timer is due at or before the event
time it fires first (one reconciliation pass over the snapshot of the pending
set, which is then cleared and the timer handle nulled), then the
notification is handled. Returns the passes run and the next state. -/
def handleEvent (st : SchedState) (t : Nat) (w : Option Int) : List (List Int) × SchedState :=
  match st.updateTimer with
  | some d =>
    if d ≤ t then
      ([st.pendingUpdates], scheduleWorkspaceUpdate w t ⟨[], none⟩)
    else
      ([], scheduleWorkspaceUpdate w t st)
  | none => ([], scheduleWorkspaceUpdate w t st)

/-- Run a time-ordered list of notifications from a scheduler state and
collect every reconciliation pass (each pass is the pending-set snapshot it
processes, each window of which it touches exactly once). A timer still armed
after the last notification eventually fires. -/
def passesOf (st : SchedState) : List (Nat × Option Int) → List (List Int)
  | [] =>
    match st.updateTimer with
    | none => []
    | some _ => [st.pendingUpdates]
  | (t, w) :: rest =>
    let r := handleEvent st t w
    r.1 ++ passesOf r.2 rest

/- ===== LIFECYCLE OPERATION TRACES (for the nextId invariant) ===== -/

/-- One lifecycle operation together with the platform inputs it consumed. -/
inductive LifecycleOp where
  | saveWindow (windowId : Int) (tabs : List Tab) (groups : List TabGroup)
  | openWorkspace (workspaceId : Nat) (focusOk : Bool) (newWindowId : Int)
  | unsaveWorkspace (workspaceId : Nat)
  | renameWorkspace (workspaceId : Nat) (newTitle : String)
  | updateOrder (newOrder : List Nat)
  | importWorkspaces (workspaces : List (Nat × Workspace)) (nextId : Nat)
deriving Repr, DecidableEq

/-- The store transition of each operation. A well-typed import payload
always passes the shape validation of handleImportWorkspace (an object is
truthy and a number is defined), so import replaces the store wholesale. -/
def stepOp : LifecycleOp → Store → Store
  | LifecycleOp.saveWindow w tabs groups, s => (handleSaveWindow w tabs groups s).2
  | LifecycleOp.openWorkspace k focusOk newW, s => (handleOpenWorkspace k focusOk newW s).2
  | LifecycleOp.unsaveWorkspace k, s => (handleUnsaveWorkspace k s).2
  | LifecycleOp.renameWorkspace k t, s => (handleRenameWorkspace k t s).2
  | LifecycleOp.updateOrder newOrder, s => (handleUpdateOrder newOrder s).2
  | LifecycleOp.importWorkspaces ws n, _ => ⟨ws, n⟩

/-- Run a trace of operations left to right. -/
def runOps (ops : List LifecycleOp) (s : Store) : Store :=
  ops.foldl (fun st op => stepOp op st) s

/-- The nextId invariant: strictly greater than every stored id. -/
def storeInvB (s : Store) : Bool :=
  s.workspaces.all (fun p => p.1 < s.nextId)

/-- Whether an operation is the wholesale import. -/
def isImport : LifecycleOp → Bool
  | LifecycleOp.importWorkspaces _ _ => true
  | _ => false

/-- The ids handleSaveWindow assigns along a trace, in order. -/
def assignedIds : List LifecycleOp → Store → List Nat
  | [], _ => []
  | op :: rest, s =>
    match op with
    | LifecycleOp.saveWindow _ tabs _ =>
      (if tabs.isEmpty then [] else [s.nextId]) ++ assignedIds rest (stepOp op s)
    | _ => assignedIds rest (stepOp op s)

/-- The nextId invariant of the claim: strictly greater than every stored id. -/
def storeInv (s : Store) : Prop :=
  ∀ p ∈ s.workspaces, p.1 < s.nextId

/- ===== RAW JS VALUES (import validation and export round-trip) ===== -/

/-- Untyped JS values, as far as the import validation can observe them. -/
inductive JSVal where
  | undef
  | null
  | boolean (b : Bool)
  | number (n : Int)
  | string (s : String)
  | object (fields : List (String × JSVal))

/-- JS truthiness. -/
def truthy : JSVal → Bool
  | JSVal.undef => false
  | JSVal.null => false
  | JSVal.boolean b => b
  | JSVal.number n => n != 0
  | JSVal.string s => s != ""
  | JSVal.object _ => true

/-- JS `typeof v === "object"` (true for null as well). -/
def isTypeofObject : JSVal → Bool
  | JSVal.null => true
  | JSVal.object _ => true
  | _ => false

/-- Whether the value is `undefined`. -/
def isUndef : JSVal → Bool
  | JSVal.undef => true
  | _ => false

/-- JS property access `v[name]`: `undefined` when the field is missing or
the value is not an object. -/
def getField : JSVal → String → JSVal
  | JSVal.object fields, name =>
    match fields.find? (fun p => p.1 == name) with
    | some p => p.2
    | none => JSVal.undef
  | _, _ => JSVal.undef

/-- The two persisted keys, as raw JS values (`undef` = key absent). -/
structure RawStorage where
  workspaces : JSVal
  nextId : JSVal

/-- getWorkspaces applied to raw storage: `data.workspaces` defaulting to an
empty object, and `data.nextId || 1`. -/
def getWorkspacesJS (st : RawStorage) : JSVal × JSVal :=
  (if truthy st.workspaces then st.workspaces else JSVal.object [],
   if truthy st.nextId then st.nextId else JSVal.number 1)

/-- handleExportWorkspaces: the workspaces/nextId object sent back. -/
def exportData (st : RawStorage) : JSVal :=
  JSVal.object [("workspaces", (getWorkspacesJS st).1), ("nextId", (getWorkspacesJS st).2)]

/-- handleImportWorkspace on a raw payload: reject when the payload is falsy,
not of typeof object, its workspaces field is falsy, or its nextId field is
undefined; otherwise store both fields wholesale. -/
def handleImportWorkspaceJS (data : JSVal) (st : RawStorage) : Resp × RawStorage :=
  if !truthy data || !isTypeofObject data
      || !truthy (getField data "workspaces") || isUndef (getField data "nextId") then
    (Resp.err "Invalid import data.", st)
  else
    (Resp.ok, ⟨getField data "workspaces", getField data "nextId"⟩)

/-- The acceptance condition of the claim amendment, stated positively. -/
def importAccepts (data : JSVal) : Bool :=
  truthy data && isTypeofObject data
    && truthy (getField data "workspaces") && !(isUndef (getField data "nextId"))

/-- The validation the claim asserts: workspaces present and an object,
nextId present and a number. -/
def claimedImportAccepts (data : JSVal) : Bool :=
  (match getField data "workspaces" with
   | JSVal.object _ => true
   | _ => false)
  && (match getField data "nextId" with
      | JSVal.number _ => true
      | _ => false)

/- ===== RECONCILIATION TRACES ===== -/

/-- A sequence of reconciliation passes: each pass carries the window it
reconciles and the live tabs and tab groups it observed. -/
def runPasses (m : List (Nat × Workspace)) : List (Int × List Tab × List TabGroup) → List (Nat × Workspace)
  | [] => m
  | pass :: rest => runPasses (updateWorkspaceForWindow m pass.1 pass.2.1 pass.2.2) rest

/- ===== CONCRETE SAMPLE DATA ===== -/

/-- A sample workspace record used in witnesses and counterexamples. -/
def sampleWs (i : Nat) : Workspace :=
  { id := i, windowId := none, tabs := ["https://a"], title := "t",
    customTitle := none, order := none, groupRanges := [] }

/-- A store holding workspaces 1, 2 and 3. -/
def store123 : Store :=
  ⟨[(1, sampleWs 1), (2, sampleWs 2), (3, sampleWs 3)], 4⟩

/-- An inactive tab titled A at index 0. -/
def tabA : Tab := { url := "http://a", title := "A", active := false, index := 0, groupId := -1 }

/-- An inactive tab titled B at index 1. -/
def tabB : Tab := { url := "http://b", title := "B", active := false, index := 1, groupId := -1 }

/- ===== THEOREMS ===== -/
theorem sanitizeUrls_getD (urls : List String) (i : Nat) (h : i < urls.length) :
    (sanitizeUrls urls).getD i "" =
      if allowedUrl (urls.getD i "") then urls.getD i "" else "about:blank" := by
  induction urls generalizing i with
  | nil => exact absurd h (by simp)
  | cons u rest ih =>
    cases i with
    | zero => simp [sanitizeUrls, allowedUrl]
    | succ n =>
      have hn : n < rest.length := by simpa using h
      simpa [sanitizeUrls] using ih n hn

/-- C1: sanitizeUrls maps each element to itself when it starts with http://
or https:// or is exactly about:blank, and to about:blank otherwise; the
concrete example from the spec evaluates as stated. -/
theorem sanitizeUrls_allowlist (urls : List String) (i : Nat) (h : i < urls.length) :
    (sanitizeUrls urls).length = urls.length
    ∧ (allowedUrl (urls.getD i "") = true →
        (sanitizeUrls urls).getD i "" = urls.getD i "")
    ∧ (allowedUrl (urls.getD i "") = false →
        (sanitizeUrls urls).getD i "" = "about:blank")
    ∧ sanitizeUrls ["https://a", "about:blank", "javascript:alert(1)", "ftp://x"]
        = ["https://a", "about:blank", "about:blank", "about:blank"] := by
  refine ⟨by simp [sanitizeUrls], ?_, ?_, by decide⟩
  · intro ha
    rw [sanitizeUrls_getD urls i h, ha]
    simp
  · intro ha
    rw [sanitizeUrls_getD urls i h, ha]
    simp

theorem sanitizeUrls_allowlist_witness :
    (sanitizeUrls ["ftp://x"]).getD 0 "" = "about:blank" :=
  (sanitizeUrls_allowlist ["ftp://x"] 0 (by decide)).2.2.1 (by decide)

theorem lookupWs_nil (k : Nat) : lookupWs [] k = none := rfl

theorem lookupWs_cons (p : Nat × Workspace) (rest : List (Nat × Workspace)) (k : Nat) :
    lookupWs (p :: rest) k = if p.1 == k then some p.2 else lookupWs rest k := by
  by_cases h : p.1 == k
  · simp [lookupWs, List.find?_cons_of_pos, h]
  · simp only [Bool.not_eq_true] at h
    simp [lookupWs, List.find?_cons_of_neg, h]

/-- Pointwise frame lemma for updateWorkspaceForWindow: an entry keeps its
key; its id, windowId, customTitle and order fields are never changed; an
entry bound to a different window is untouched; and the title is untouched
whenever a custom title is set. -/
theorem update_frame_lookup (m : List (Nat × Workspace)) (winId : Int) (tabs : List Tab)
    (groups : List TabGroup) (k : Nat) (ws : Workspace)
    (h : lookupWs m k = some ws) :
    ∃ ws2, lookupWs (updateWorkspaceForWindow m winId tabs groups) k = some ws2
      ∧ ws2.id = ws.id ∧ ws2.windowId = ws.windowId
      ∧ ws2.customTitle = ws.customTitle ∧ ws2.order = ws.order
      ∧ (ws.windowId ≠ some winId → ws2 = ws)
      ∧ (ws.customTitle ≠ none → ws2.title = ws.title) := by
  by_cases hte : tabs.isEmpty
  · refine ⟨ws, ?_, rfl, rfl, rfl, rfl, fun _ => rfl, fun _ => rfl⟩
    simpa [updateWorkspaceForWindow, hte] using h
  · induction m with
    | nil => simp [lookupWs] at h
    | cons p rest ih =>
      rw [lookupWs_cons] at h
      by_cases hk : p.1 == k
      · rw [if_pos hk] at h
        have hws : p.2 = ws := Option.some.inj h
        by_cases hw : p.2.windowId == some winId
        · refine ⟨{ p.2 with
              tabs := tabs.map (fun tab => tab.url),
              groupRanges := computeGroupRanges tabs groups,
              title := if p.2.customTitle == none then
                  jsTabTitle ((tabs.find? (fun tab => tab.active)).orElse (fun _ => tabs.getLast?))
                else p.2.title }, ?_, ?_, ?_, ?_, ?_, ?_, ?_⟩
          · simp only [updateWorkspaceForWindow, hte, Bool.false_eq_true, if_false]
            rw [List.map_cons, if_pos hw, lookupWs_cons]
            simp [hk]
          · simp [hws]
          · simp [hws]
          · simp [hws]
          · simp [hws]
          · intro hne
            exact absurd (by simpa [hws] using hw) hne
          · intro hct
            have : (ws.customTitle == none) = false := by
              cases hcc : ws.customTitle with
              | none => exact absurd hcc hct
              | some c => simp
            simp [hws, this]
        · refine ⟨ws, ?_, rfl, rfl, rfl, rfl, fun _ => rfl, fun _ => rfl⟩
          simp only [updateWorkspaceForWindow, hte, Bool.false_eq_true, if_false]
          rw [List.map_cons, if_neg hw, lookupWs_cons, if_pos hk, hws]
      · rw [if_neg hk] at h
        obtain ⟨ws2, hl, h1, h2, h3, h4, h5, h6⟩ := ih h
        refine ⟨ws2, ?_, h1, h2, h3, h4, h5, h6⟩
        simp only [updateWorkspaceForWindow, hte, Bool.false_eq_true, if_false] at hl ⊢
        rw [List.map_cons, lookupWs_cons]
        by_cases hw : p.2.windowId == some winId
        · rw [if_pos hw]
          simpa [hk] using hl
        · rw [if_neg hw]
          simpa [hk] using hl

theorem update_keysOf (m : List (Nat × Workspace)) (winId : Int) (tabs : List Tab)
    (groups : List TabGroup) :
    keysOf (updateWorkspaceForWindow m winId tabs groups) = keysOf m := by
  by_cases hte : tabs.isEmpty
  · simp [updateWorkspaceForWindow, hte]
  · simp only [updateWorkspaceForWindow, hte, Bool.false_eq_true, if_false, keysOf, List.map_map]
    refine List.map_congr_left ?_
    intro p _
    simp only [Function.comp_apply]
    split <;> rfl

/-- C10: updateWorkspaceForWindow only ever changes the tabs, groupRanges and
title fields, and only of workspaces bound to the given window; the id,
windowId, customTitle and order fields of every workspace are unchanged, a
workspace bound to a different window is entirely unchanged, the key
structure of the map is unchanged, and an empty live tab list leaves the
whole map unchanged. -/
theorem updateWorkspaceForWindow_frame (m : List (Nat × Workspace)) (winId : Int)
    (tabs : List Tab) (groups : List TabGroup) :
    (tabs = [] → updateWorkspaceForWindow m winId tabs groups = m)
    ∧ keysOf (updateWorkspaceForWindow m winId tabs groups) = keysOf m
    ∧ (∀ k ws, lookupWs m k = some ws → ws.windowId ≠ some winId →
        lookupWs (updateWorkspaceForWindow m winId tabs groups) k = some ws)
    ∧ (∀ k ws, lookupWs m k = some ws → ∃ ws2,
        lookupWs (updateWorkspaceForWindow m winId tabs groups) k = some ws2
        ∧ ws2.id = ws.id ∧ ws2.windowId = ws.windowId
        ∧ ws2.customTitle = ws.customTitle ∧ ws2.order = ws.order) := by
  refine ⟨?_, update_keysOf m winId tabs groups, ?_, ?_⟩
  · intro h
    simp [updateWorkspaceForWindow, h]
  · intro k ws h hne
    obtain ⟨ws2, hl, _, _, _, _, h5, _⟩ := update_frame_lookup m winId tabs groups k ws h
    rw [hl, h5 hne]
  · intro k ws h
    obtain ⟨ws2, hl, h1, h2, h3, h4, _, _⟩ := update_frame_lookup m winId tabs groups k ws h
    exact ⟨ws2, hl, h1, h2, h3, h4⟩

theorem updateWorkspaceForWindow_frame_witness :
    lookupWs (updateWorkspaceForWindow [(1, sampleWs 1)] 7 [tabA] []) 1 = some (sampleWs 1) :=
  (updateWorkspaceForWindow_frame [(1, sampleWs 1)] 7 [tabA] []).2.2.1 1 (sampleWs 1)
    (by decide) (by decide)

/-- C2: a workspace whose customTitle is set (and mirrored into title, as
rename establishes) keeps title equal to customTitle across any number of
reconciliation passes over any windows with any live tab lists; the title is
auto-updated only when customTitle is unset. -/
theorem customTitle_sticky (m : List (Nat × Workspace))
    (passes : List (Int × List Tab × List TabGroup)) (k : Nat) (ws : Workspace) (c : String)
    (hws : lookupWs m k = some ws) (hct : ws.customTitle = some c) (ht : ws.title = c) :
    ∃ ws2, lookupWs (runPasses m passes) k = some ws2
      ∧ ws2.customTitle = some c ∧ ws2.title = c := by
  induction passes generalizing m ws with
  | nil => exact ⟨ws, hws, hct, ht⟩
  | cons pass rest ih =>
    obtain ⟨ws2, hl, _, _, h3, _, _, h6⟩ :=
      update_frame_lookup m pass.1 pass.2.1 pass.2.2 k ws hws
    have hct2 : ws2.customTitle = some c := h3.trans hct
    have ht2 : ws2.title = c := by
      rw [h6 (by rw [hct]; exact Option.some_ne_none c), ht]
    exact ih (updateWorkspaceForWindow m pass.1 pass.2.1 pass.2.2) ws2 hl hct2 ht2

theorem customTitle_sticky_witness :
    ∃ ws2, lookupWs (runPasses [(1, ⟨1, some 7, ["https://a"], "mine", some "mine", none, []⟩)]
        [(7, [tabA, tabB], [])]) 1 = some ws2
      ∧ ws2.customTitle = some "mine" ∧ ws2.title = "mine" :=
  customTitle_sticky [(1, ⟨1, some 7, ["https://a"], "mine", some "mine", none, []⟩)]
    [(7, [tabA, tabB], [])] 1 ⟨1, some 7, ["https://a"], "mine", some "mine", none, []⟩
    "mine" (by decide) (by decide) (by decide)

/-- C8: for a workspaceId absent from the store, open, unsave and rename each
respond with the error string Workspace not found. and leave the store
unchanged; the error is a response value, not an exception. -/
theorem notFound_error_responses (s : Store) (wsId : Nat) (focusOk : Bool)
    (newWindowId : Int) (newTitle : String)
    (h : lookupWs s.workspaces wsId = none) :
    handleOpenWorkspace wsId focusOk newWindowId s = (Resp.err "Workspace not found.", s)
    ∧ handleUnsaveWorkspace wsId s = (Resp.err "Workspace not found.", s)
    ∧ handleRenameWorkspace wsId newTitle s = (Resp.err "Workspace not found.", s) := by
  refine ⟨?_, ?_, ?_⟩
  · simp [handleOpenWorkspace, h]
  · simp [handleUnsaveWorkspace, h]
  · simp [handleRenameWorkspace, h]

theorem notFound_error_responses_witness :
    handleOpenWorkspace 9 true 5 store123 = (Resp.err "Workspace not found.", store123)
    ∧ handleUnsaveWorkspace 9 store123 = (Resp.err "Workspace not found.", store123)
    ∧ handleRenameWorkspace 9 "x" store123 = (Resp.err "Workspace not found.", store123) :=
  notFound_error_responses store123 9 true 5 "x" (by decide)

/-- C5 counterexample: with two inactive tabs titled A then B, handleSaveWindow
titles the new workspace from the FIRST tab (A), not from the last tab (B) as
the claim states; the claim fails at this input. -/
theorem saveWindow_representative_cex :
    [tabA, tabB].find? (fun tab => tab.active) = none
    ∧ [tabA, tabB].getLast? = some tabB
    ∧ (handleSaveWindow 7 [tabA, tabB] [] ⟨[], 1⟩).1
        = Resp.okWorkspace ⟨1, some 7, ["http://a", "http://b"], "A", none, none, []⟩
    ∧ tabB.title = "B"
    ∧ ("A" : String) ≠ "B" := by decide

/-- C5 amended: for every window with a non-empty tab list, handleSaveWindow
builds the record with id nextId, the live urls, bound windowId, no custom
title, and the title of the representative tab, which is the currently-active
tab if any, else the FIRST tab in order (tabs[0]). -/
theorem saveWindow_representative (windowId : Int) (tabs : List Tab)
    (groups : List TabGroup) (s : Store) (h : tabs ≠ []) :
    ∃ w, (handleSaveWindow windowId tabs groups s).1 = Resp.okWorkspace w
      ∧ w.id = s.nextId ∧ w.windowId = some windowId
      ∧ w.tabs = tabs.map (fun tab => tab.url)
      ∧ w.customTitle = none
      ∧ (∀ t, tabs.find? (fun tab => tab.active) = some t → w.title = jsTitleOrEmpty (some t))
      ∧ (tabs.find? (fun tab => tab.active) = none → w.title = jsTitleOrEmpty tabs.head?) := by
  have hte : tabs.isEmpty = false := by
    cases tabs with
    | nil => exact absurd rfl h
    | cons a t => rfl
  refine ⟨{ id := s.nextId, windowId := some windowId,
            tabs := tabs.map (fun tab => tab.url),
            title := jsTitleOrEmpty ((tabs.find? (fun tab => tab.active)).orElse (fun _ => tabs.head?)),
            customTitle := none, order := none,
            groupRanges := computeGroupRanges tabs groups }, ?_, rfl, rfl, rfl, rfl, ?_, ?_⟩
  · simp [handleSaveWindow, hte]
  · intro t ht
    simp [ht, Option.orElse]
  · intro ht
    simp [ht, Option.orElse]

theorem saveWindow_representative_witness :
    ∃ w, (handleSaveWindow 7 [tabA, tabB] [] ⟨[], 1⟩).1 = Resp.okWorkspace w
      ∧ w.title = jsTitleOrEmpty [tabA, tabB].head? := by
  obtain ⟨w, h1, _, _, _, _, _, h7⟩ :=
    saveWindow_representative 7 [tabA, tabB] [] ⟨[], 1⟩ (by decide)
  exact ⟨w, h1, h7 (by decide)⟩

theorem getField_pair_workspaces (w n : JSVal) :
    getField (JSVal.object [("workspaces", w), ("nextId", n)]) "workspaces" = w := rfl

theorem getField_pair_nextId (w n : JSVal) :
    getField (JSVal.object [("workspaces", w), ("nextId", n)]) "nextId" = n := rfl

theorem truthy_not_undef (v : JSVal) (h : truthy v = true) : isUndef v = false := by
  cases v <;> simp_all [truthy, isUndef]

theorem importJS_reject (data : JSVal) (st : RawStorage) (h : importAccepts data = false) :
    handleImportWorkspaceJS data st = (Resp.err "Invalid import data.", st) := by
  unfold importAccepts at h
  unfold handleImportWorkspaceJS
  cases ha : truthy data <;> cases hb : isTypeofObject data <;>
    cases hc : truthy (getField data "workspaces") <;>
    cases hd : isUndef (getField data "nextId") <;>
    simp_all

theorem importJS_accept (data : JSVal) (st : RawStorage) (h : importAccepts data = true) :
    handleImportWorkspaceJS data st
      = (Resp.ok, ⟨getField data "workspaces", getField data "nextId"⟩) := by
  unfold importAccepts at h
  unfold handleImportWorkspaceJS
  cases ha : truthy data <;> cases hb : isTypeofObject data <;>
    cases hc : truthy (getField data "workspaces") <;>
    cases hd : isUndef (getField data "nextId") <;>
    simp_all

/-- C4 counterexample: the payload with workspaces = 5 (a number, not an
object) and nextId = "x" (a string, not a number) must be rejected according
to the claim, but the handler accepts it and replaces the store with these
ill-shaped values: the validation only tests truthiness of workspaces and
definedness of nextId. -/
theorem import_validation_cex :
    claimedImportAccepts
        (JSVal.object [("workspaces", JSVal.number 5), ("nextId", JSVal.string "x")]) = false
    ∧ (handleImportWorkspaceJS
        (JSVal.object [("workspaces", JSVal.number 5), ("nextId", JSVal.string "x")])
        ⟨JSVal.object [], JSVal.number 1⟩).1 = Resp.ok
    ∧ (handleImportWorkspaceJS
        (JSVal.object [("workspaces", JSVal.number 5), ("nextId", JSVal.string "x")])
        ⟨JSVal.object [], JSVal.number 1⟩).2.workspaces = JSVal.number 5
    ∧ (handleImportWorkspaceJS
        (JSVal.object [("workspaces", JSVal.number 5), ("nextId", JSVal.string "x")])
        ⟨JSVal.object [], JSVal.number 1⟩).2.nextId = JSVal.string "x" :=
  ⟨rfl, rfl, rfl, rfl⟩

/-- C4 amended: handleImportWorkspace rejects exactly those payloads that are
falsy or not of typeof object, or whose workspaces field is falsy, or whose
nextId field is undefined (truthiness and definedness, not object/number
shape checks), responding Invalid import data. and leaving the store
unchanged; every accepted payload replaces the stored workspaces and nextId
wholesale with the payload fields. -/
theorem import_validation (data : JSVal) (st : RawStorage) :
    (importAccepts data = false →
      handleImportWorkspaceJS data st = (Resp.err "Invalid import data.", st))
    ∧ (importAccepts data = true →
      handleImportWorkspaceJS data st
        = (Resp.ok, ⟨getField data "workspaces", getField data "nextId"⟩)) :=
  ⟨importJS_reject data st, importJS_accept data st⟩

theorem import_validation_witness :
    handleImportWorkspaceJS JSVal.null ⟨JSVal.object [], JSVal.number 1⟩
      = (Resp.err "Invalid import data.", ⟨JSVal.object [], JSVal.number 1⟩)
    ∧ handleImportWorkspaceJS
        (JSVal.object [("workspaces", JSVal.object []), ("nextId", JSVal.number 3)])
        ⟨JSVal.object [], JSVal.number 1⟩
      = (Resp.ok, ⟨JSVal.object [], JSVal.number 3⟩) :=
  ⟨(import_validation JSVal.null ⟨JSVal.object [], JSVal.number 1⟩).1 rfl,
   (import_validation (JSVal.object [("workspaces", JSVal.object []), ("nextId", JSVal.number 3)])
      ⟨JSVal.object [], JSVal.number 1⟩).2 rfl⟩

theorem truthy_getWorkspacesJS_fst (st : RawStorage) : truthy (getWorkspacesJS st).1 = true := by
  show truthy (if truthy st.workspaces = true then st.workspaces else JSVal.object []) = true
  by_cases h : truthy st.workspaces = true
  · rw [if_pos h]
    exact h
  · rw [if_neg h]
    rfl

theorem getWorkspacesJS_snd_not_undef (st : RawStorage) :
    isUndef (getWorkspacesJS st).2 = false := by
  show isUndef (if truthy st.nextId = true then st.nextId else JSVal.number 1) = false
  by_cases h : truthy st.nextId = true
  · rw [if_pos h]
    exact truthy_not_undef _ h
  · rw [if_neg h]
    rfl

theorem exportData_accepted (st : RawStorage) : importAccepts (exportData st) = true := by
  unfold importAccepts exportData
  rw [getField_pair_workspaces, getField_pair_nextId,
    truthy_getWorkspacesJS_fst, getWorkspacesJS_snd_not_undef]
  rfl

/-- C7 counterexample: the store state with workspaces = an empty object and
nextId = 0 is reachable (the first conjunct shows the import handler itself
writes it, since 0 is defined and therefore passes validation). Exporting it
goes through the load defaulting `nextId || 1` and yields nextId = 1, and so
the import of the exported data stores nextId = 1: the round trip succeeds
but does not leave the store equal to its pre-export state. -/
theorem export_import_roundtrip_cex :
    handleImportWorkspaceJS (JSVal.object [("workspaces", JSVal.object []), ("nextId", JSVal.number 0)])
        ⟨JSVal.object [], JSVal.number 1⟩
      = (Resp.ok, ⟨JSVal.object [], JSVal.number 0⟩)
    ∧ (handleImportWorkspaceJS (exportData ⟨JSVal.object [], JSVal.number 0⟩)
        ⟨JSVal.object [], JSVal.number 0⟩).1 = Resp.ok
    ∧ (handleImportWorkspaceJS (exportData ⟨JSVal.object [], JSVal.number 0⟩)
        ⟨JSVal.object [], JSVal.number 0⟩).2.nextId = JSVal.number 1
    ∧ JSVal.number 1 ≠ JSVal.number 0 := by
  refine ⟨rfl, rfl, rfl, ?_⟩
  intro hcontra
  injection hcontra with h
  exact absurd h (by decide)

/-- C7 amended: the export/import round trip always succeeds, and for every
store whose workspaces value is truthy and whose nextId value is truthy (as
is the case for every store the lifecycle operations write, where nextId is
at least 1) it leaves the store exactly equal to its pre-export state; on the
remaining degenerate stores (absent keys or nextId = 0) the load-time
defaulting normalizes workspaces to the empty object and nextId to 1. -/
theorem export_import_roundtrip (st : RawStorage)
    (hw : truthy st.workspaces = true) (hn : truthy st.nextId = true) :
    (∀ st2 : RawStorage, (handleImportWorkspaceJS (exportData st2) st2).1 = Resp.ok)
    ∧ handleImportWorkspaceJS (exportData st) st = (Resp.ok, st) := by
  constructor
  · intro st2
    rw [importJS_accept (exportData st2) st2 (exportData_accepted st2)]
  · rw [importJS_accept (exportData st) st (exportData_accepted st)]
    unfold exportData
    rw [getField_pair_workspaces, getField_pair_nextId]
    unfold getWorkspacesJS
    simp [hw, hn]

theorem export_import_roundtrip_witness :
    handleImportWorkspaceJS (exportData ⟨JSVal.object [], JSVal.number 5⟩)
        ⟨JSVal.object [], JSVal.number 5⟩
      = (Resp.ok, ⟨JSVal.object [], JSVal.number 5⟩) :=
  (export_import_roundtrip ⟨JSVal.object [], JSVal.number 5⟩ rfl rfl).2

theorem lookupWs_setOrderForId (m : List (Nat × Workspace)) (wsId idx k : Nat) :
    lookupWs (setOrderForId m wsId idx) k =
      if k = wsId then (lookupWs m k).map (fun ws => { ws with order := some idx })
      else lookupWs m k := by
  induction m with
  | nil =>
    simp [setOrderForId, lookupWs]
  | cons p rest ih =>
    have hcons : setOrderForId (p :: rest) wsId idx
        = (if p.1 == wsId then (p.1, { p.2 with order := some idx }) else p)
          :: setOrderForId rest wsId idx := rfl
    rw [hcons]
    by_cases hpw : p.1 = wsId <;> by_cases hpk : p.1 = k
    · subst hpw
      subst hpk
      simp [lookupWs_cons]
    · have hkw : ¬ k = wsId := fun hh => hpk (hpw.trans hh.symm)
      subst hpw
      simp [lookupWs_cons, ih, hpk, hkw]
    · subst hpk
      simp [lookupWs_cons, hpw]
    · simp [lookupWs_cons, ih, hpk, hpw]

theorem lookupWs_applyListedOrders_notMem (l : List Nat) (m : List (Nat × Workspace))
    (j k : Nat) (h : k ∉ l) :
    lookupWs (applyListedOrders m l j) k = lookupWs m k := by
  induction l generalizing m j with
  | nil => rfl
  | cons a rest ih =>
    have hka : ¬ k = a := fun hh => h (hh ▸ List.mem_cons_self a rest)
    have hrest : k ∉ rest := fun hh => h (List.mem_cons_of_mem a hh)
    have hstep : applyListedOrders m (a :: rest) j
        = applyListedOrders (setOrderForId m a j) rest (j + 1) := rfl
    rw [hstep, ih (setOrderForId m a j) (j + 1) hrest, lookupWs_setOrderForId, if_neg hka]

theorem lookupWs_applyListedOrders_at (l : List Nat) (m : List (Nat × Workspace))
    (j i : Nat) (hnd : l.Nodup) (hi : i < l.length) :
    lookupWs (applyListedOrders m l j) (l.getD i 0)
      = (lookupWs m (l.getD i 0)).map (fun ws => { ws with order := some (j + i) }) := by
  induction l generalizing m j i with
  | nil => simp at hi
  | cons a rest ih =>
    have hstep : applyListedOrders m (a :: rest) j
        = applyListedOrders (setOrderForId m a j) rest (j + 1) := rfl
    cases i with
    | zero =>
      have ha : a ∉ rest := (List.nodup_cons.mp hnd).1
      rw [List.getD_cons_zero, hstep,
        lookupWs_applyListedOrders_notMem rest (setOrderForId m a j) (j + 1) a ha,
        lookupWs_setOrderForId, if_pos rfl]
      rfl
    | succ n =>
      have hn : n < rest.length := by simpa using hi
      have hmem : rest.getD n 0 ∈ rest := by
        rw [List.getD_eq_getElem?_getD, List.getElem?_eq_getElem hn]
        exact List.getElem_mem hn
      have hna : ¬ rest.getD n 0 = a := by
        intro hh
        exact (List.nodup_cons.mp hnd).1 (hh ▸ hmem)
      rw [List.getD_cons_succ, hstep,
        ih (setOrderForId m a j) (j + 1) n (List.nodup_cons.mp hnd).2 hn,
        lookupWs_setOrderForId, if_neg hna]
      have harith : j + 1 + n = j + (n + 1) := by omega
      rw [harith]

theorem lookupWs_assignUnlisted_mem (newOrder : List Nat) (m : List (Nat × Workspace))
    (c k : Nat) (h : newOrder.contains k = true) :
    lookupWs (assignUnlisted newOrder m c) k = lookupWs m k := by
  induction m generalizing c with
  | nil => rfl
  | cons p rest ih =>
    obtain ⟨a, b⟩ := p
    by_cases hmem : a ∈ newOrder
    · have hstep : assignUnlisted newOrder ((a, b) :: rest) c
          = (a, b) :: assignUnlisted newOrder rest c := by
        simp [assignUnlisted, hmem]
      rw [hstep, lookupWs_cons, lookupWs_cons]
      by_cases hak : (a == k) = true
      · simp [hak]
      · simp [hak, ih c]
    · have hkmem : k ∈ newOrder := by simpa using h
      have hak : ¬ a = k := fun hh => hmem (hh ▸ hkmem)
      have hstep : assignUnlisted newOrder ((a, b) :: rest) c
          = (a, { b with order := some c }) :: assignUnlisted newOrder rest (c + 1) := by
        simp [assignUnlisted, hmem]
      rw [hstep, lookupWs_cons, lookupWs_cons, if_neg (by simpa using hak),
        if_neg (by simpa using hak), ih (c + 1)]

theorem lookupWs_assignUnlisted_notMem (newOrder : List Nat) (m : List (Nat × Workspace))
    (c k : Nat) (hk : newOrder.contains k = false) (ws : Workspace)
    (h : lookupWs m k = some ws) :
    ∃ v, c ≤ v ∧ lookupWs (assignUnlisted newOrder m c) k
      = some { ws with order := some v } := by
  have hknm : k ∉ newOrder := by simpa using hk
  induction m generalizing c with
  | nil => simp [lookupWs] at h
  | cons p rest ih =>
    obtain ⟨a, b⟩ := p
    rw [lookupWs_cons] at h
    by_cases hak : a = k
    · subst hak
      have hstep : assignUnlisted newOrder ((a, b) :: rest) c
          = (a, { b with order := some c }) :: assignUnlisted newOrder rest (c + 1) := by
        simp [assignUnlisted, hknm]
      have hb : b = ws := by simpa using h
      subst hb
      exact ⟨c, Nat.le_refl c, by rw [hstep, lookupWs_cons, if_pos (by simp)]⟩
    · rw [if_neg (by simpa using hak)] at h
      by_cases hmem : a ∈ newOrder
      · have hstep : assignUnlisted newOrder ((a, b) :: rest) c
            = (a, b) :: assignUnlisted newOrder rest c := by
          simp [assignUnlisted, hmem]
        obtain ⟨v, hv, hl⟩ := ih c h
        exact ⟨v, hv, by rw [hstep, lookupWs_cons, if_neg (by simpa using hak)]; exact hl⟩
      · have hstep : assignUnlisted newOrder ((a, b) :: rest) c
            = (a, { b with order := some c }) :: assignUnlisted newOrder rest (c + 1) := by
          simp [assignUnlisted, hmem]
        obtain ⟨v, hv, hl⟩ := ih (c + 1) h
        exact ⟨v, by omega, by rw [hstep, lookupWs_cons, if_neg (by simpa using hak)]; exact hl⟩

theorem assignUnlisted_orders (newOrder : List Nat) (m : List (Nat × Workspace)) (c : Nat) :
    ((assignUnlisted newOrder m c).filter (fun p => !(newOrder.contains p.1))).map
        (fun p => p.2.order)
      = (List.range' c ((m.filter (fun p => !(newOrder.contains p.1))).length)).map
          (fun v => some v) := by
  induction m generalizing c with
  | nil => rfl
  | cons p rest ih =>
    obtain ⟨a, b⟩ := p
    by_cases hmem : a ∈ newOrder
    · have hstep : assignUnlisted newOrder ((a, b) :: rest) c
          = (a, b) :: assignUnlisted newOrder rest c := by
        simp [assignUnlisted, hmem]
      rw [hstep]
      have ihc := ih c
      simp only [List.contains, List.elem_eq_mem] at ihc
      simp [List.filter_cons, hmem, ihc]
    · have hstep : assignUnlisted newOrder ((a, b) :: rest) c
          = (a, { b with order := some c }) :: assignUnlisted newOrder rest (c + 1) := by
        simp [assignUnlisted, hmem]
      rw [hstep]
      have ihc := ih (c + 1)
      simp only [List.contains, List.elem_eq_mem] at ihc
      simp [List.filter_cons, hmem, ihc, List.range'_succ]

theorem setOrderForId_keys (m : List (Nat × Workspace)) (wsId idx : Nat) :
    keysOf (setOrderForId m wsId idx) = keysOf m := by
  unfold keysOf setOrderForId
  rw [List.map_map]
  refine List.map_congr_left ?_
  intro p _
  simp only [Function.comp_apply]
  split <;> rfl

theorem applyListedOrders_keys (l : List Nat) (m : List (Nat × Workspace)) (j : Nat) :
    keysOf (applyListedOrders m l j) = keysOf m := by
  induction l generalizing m j with
  | nil => rfl
  | cons a rest ih =>
    have hstep : applyListedOrders m (a :: rest) j
        = applyListedOrders (setOrderForId m a j) rest (j + 1) := rfl
    rw [hstep, ih (setOrderForId m a j) (j + 1), setOrderForId_keys]

theorem filter_key_length (m1 m : List (Nat × Workspace)) (h : keysOf m1 = keysOf m)
    (pred : Nat → Bool) :
    (m1.filter (fun p => pred p.1)).length = (m.filter (fun p => pred p.1)).length := by
  induction m1 generalizing m with
  | nil =>
    have hm : m = [] := by
      cases m with
      | nil => rfl
      | cons q qs => simp [keysOf] at h
    subst hm
    rfl
  | cons p rest ih =>
    cases m with
    | nil => simp [keysOf] at h
    | cons q qs =>
      simp only [keysOf, List.map_cons, List.cons.injEq] at h
      obtain ⟨h1, h2⟩ := h
      simp only [List.filter_cons, h1]
      by_cases hp : pred q.1 = true
      · simp [hp, ih qs h2]
      · simp [hp, ih qs h2]

/-- C6: handleUpdateOrder assigns order = index to each listed id present in
the store, in the order given (stated for duplicate-free id lists, where the
index is well defined), assigns the next sequential order values starting at
newOrder.length to the workspaces not mentioned, in key-iteration order, and
responds with success; together these overwrite every order field. -/
theorem updateOrder_spec (s : Store) (newOrder : List Nat) (hnd : newOrder.Nodup) :
    (handleUpdateOrder newOrder s).1 = Resp.ok
    ∧ (∀ i, i < newOrder.length →
        lookupWs (handleUpdateOrder newOrder s).2.workspaces (newOrder.getD i 0)
          = (lookupWs s.workspaces (newOrder.getD i 0)).map
              (fun ws => { ws with order := some i }))
    ∧ (∀ k ws, newOrder.contains k = false → lookupWs s.workspaces k = some ws →
        ∃ v, newOrder.length ≤ v
          ∧ lookupWs (handleUpdateOrder newOrder s).2.workspaces k
              = some { ws with order := some v })
    ∧ (((handleUpdateOrder newOrder s).2.workspaces.filter
          (fun p => !(newOrder.contains p.1))).map (fun p => p.2.order)
        = (List.range' newOrder.length
            ((s.workspaces.filter (fun p => !(newOrder.contains p.1))).length)).map
            (fun v => some v)) := by
  have hws : (handleUpdateOrder newOrder s).2.workspaces
      = assignUnlisted newOrder (applyListedOrders s.workspaces newOrder 0)
          newOrder.length := rfl
  refine ⟨rfl, ?_, ?_, ?_⟩
  · intro i hi
    have hkmem : newOrder.getD i 0 ∈ newOrder := by
      rw [List.getD_eq_getElem?_getD, List.getElem?_eq_getElem hi]
      exact List.getElem_mem hi
    have hcont : newOrder.contains (newOrder.getD i 0) = true := by simpa using hkmem
    rw [hws, lookupWs_assignUnlisted_mem newOrder _ _ _ hcont,
      lookupWs_applyListedOrders_at newOrder s.workspaces 0 i hnd hi]
    simp
  · intro k ws hk hlk
    have hknm : k ∉ newOrder := by simpa using hk
    have hph1 : lookupWs (applyListedOrders s.workspaces newOrder 0) k = some ws := by
      rw [lookupWs_applyListedOrders_notMem newOrder s.workspaces 0 k hknm]
      exact hlk
    obtain ⟨v, hv, hl⟩ :=
      lookupWs_assignUnlisted_notMem newOrder _ newOrder.length k hk ws hph1
    exact ⟨v, hv, by rw [hws]; exact hl⟩
  · rw [hws, assignUnlisted_orders]
    have hlen := filter_key_length (applyListedOrders s.workspaces newOrder 0) s.workspaces
      (applyListedOrders_keys newOrder s.workspaces 0) (fun k => !(newOrder.contains k))
    rw [hlen]

theorem updateOrder_spec_witness :
    lookupWs (handleUpdateOrder [3, 1] store123).2.workspaces 3
        = some { sampleWs 3 with order := some 0 }
    ∧ lookupWs (handleUpdateOrder [3, 1] store123).2.workspaces 1
        = some { sampleWs 1 with order := some 1 }
    ∧ ∃ v, 1 < v ∧ lookupWs (handleUpdateOrder [3, 1] store123).2.workspaces 2
        = some { sampleWs 2 with order := some v } := by
  have h := updateOrder_spec store123 [3, 1] (by decide)
  refine ⟨?_, ?_, ?_⟩
  · have h0 := h.2.1 0 (by decide)
    rw [show ([3, 1].getD 0 0) = 3 from rfl] at h0
    rw [h0]
    rfl
  · have h1 := h.2.1 1 (by decide)
    rw [show ([3, 1].getD 1 0) = 1 from rfl] at h1
    rw [h1]
    rfl
  · obtain ⟨v, hv, hl⟩ := h.2.2.1 2 (sampleWs 2) (by decide) (by decide)
    have hv2 : 2 ≤ v := by simpa using hv
    exact ⟨v, by omega, hl⟩

theorem mem_setKey (m : List (Nat × Workspace)) (k : Nat) (v : Workspace)
    (p : Nat × Workspace) (hp : p ∈ setKey m k v) : p = (k, v) ∨ p ∈ m := by
  induction m with
  | nil =>
    simp only [setKey, List.mem_singleton] at hp
    exact Or.inl hp
  | cons q rest ih =>
    obtain ⟨k0, v0⟩ := q
    simp only [setKey] at hp
    by_cases h1 : k < k0
    · rw [if_pos h1] at hp
      rcases List.mem_cons.mp hp with h | h
      · exact Or.inl h
      · exact Or.inr h
    · rw [if_neg h1] at hp
      by_cases h2 : (k == k0) = true
      · rw [if_pos h2] at hp
        rcases List.mem_cons.mp hp with h | h
        · exact Or.inl h
        · exact Or.inr (List.mem_cons_of_mem _ h)
      · rw [if_neg h2] at hp
        rcases List.mem_cons.mp hp with h | h
        · exact Or.inr (h ▸ List.mem_cons_self _ _)
        · rcases ih h with h3 | h3
          · exact Or.inl h3
          · exact Or.inr (List.mem_cons_of_mem _ h3)

theorem lookupWs_some_key_mem (m : List (Nat × Workspace)) (k : Nat) (ws : Workspace)
    (h : lookupWs m k = some ws) : (k, ws) ∈ m := by
  unfold lookupWs at h
  cases hf : m.find? (fun p => p.1 == k) with
  | none => rw [hf] at h; simp at h
  | some p =>
    rw [hf] at h
    have hkey := List.find?_some hf
    have hmem : p ∈ m := List.mem_of_find?_eq_some hf
    have hws : p.2 = ws := by simpa using h
    have hk : p.1 = k := by simpa using hkey
    have : p = (k, ws) := by
      cases p
      simp_all
    exact this ▸ hmem

theorem assignUnlisted_keys (newOrder : List Nat) (m : List (Nat × Workspace)) (c : Nat) :
    keysOf (assignUnlisted newOrder m c) = keysOf m := by
  induction m generalizing c with
  | nil => rfl
  | cons p rest ih =>
    obtain ⟨a, b⟩ := p
    by_cases hmem : a ∈ newOrder
    · have hstep : assignUnlisted newOrder ((a, b) :: rest) c
          = (a, b) :: assignUnlisted newOrder rest c := by
        simp [assignUnlisted, hmem]
      rw [hstep]
      have hcons1 : keysOf ((a, b) :: assignUnlisted newOrder rest c)
          = a :: keysOf (assignUnlisted newOrder rest c) := rfl
      have hcons2 : keysOf ((a, b) :: rest) = a :: keysOf rest := rfl
      rw [hcons1, hcons2, ih c]
    · have hstep : assignUnlisted newOrder ((a, b) :: rest) c
          = (a, { b with order := some c }) :: assignUnlisted newOrder rest (c + 1) := by
        simp [assignUnlisted, hmem]
      rw [hstep]
      have hcons1 : keysOf ((a, { b with order := some c })
            :: assignUnlisted newOrder rest (c + 1))
          = a :: keysOf (assignUnlisted newOrder rest (c + 1)) := rfl
      have hcons2 : keysOf ((a, b) :: rest) = a :: keysOf rest := rfl
      rw [hcons1, hcons2, ih (c + 1)]

theorem keysOf_bound (m1 m : List (Nat × Workspace)) (B : Nat)
    (hk : keysOf m1 = keysOf m) (hall : ∀ p ∈ m, p.1 < B) : ∀ p ∈ m1, p.1 < B := by
  intro p hp
  have h1 : p.1 ∈ keysOf m1 := List.mem_map_of_mem (fun q => q.1) hp
  rw [hk] at h1
  obtain ⟨q, hq, hqe⟩ := List.mem_map.mp h1
  exact hqe ▸ hall q hq

theorem stepOp_preserves (op : LifecycleOp) (s : Store) (hop : isImport op = false)
    (hinv : storeInv s) :
    storeInv (stepOp op s) ∧ s.nextId ≤ (stepOp op s).nextId := by
  cases op with
  | saveWindow w tabs groups =>
    by_cases hte : tabs.isEmpty
    · constructor
      · simpa [stepOp, handleSaveWindow, hte] using hinv
      · simp [stepOp, handleSaveWindow, hte]
    · have hstep : stepOp (LifecycleOp.saveWindow w tabs groups) s
          = ⟨setKey s.workspaces s.nextId
              { id := s.nextId, windowId := some w,
                tabs := tabs.map (fun tab => tab.url),
                title := jsTitleOrEmpty
                  ((tabs.find? (fun tab => tab.active)).orElse (fun _ => tabs.head?)),
                customTitle := none, order := none,
                groupRanges := computeGroupRanges tabs groups },
             s.nextId + 1⟩ := by
        simp [stepOp, handleSaveWindow, hte]
      rw [hstep]
      constructor
      · intro p hp
        rcases mem_setKey _ _ _ p hp with h | h
        · rw [h]
          exact Nat.lt_succ_self s.nextId
        · exact Nat.lt_succ_of_lt (hinv p h)
      · exact Nat.le_succ s.nextId
  | openWorkspace k focusOk newW =>
    cases hlk : lookupWs s.workspaces k with
    | none =>
      constructor
      · simpa [stepOp, handleOpenWorkspace, hlk] using hinv
      · simp [stepOp, handleOpenWorkspace, hlk]
    | some ws =>
      by_cases hfoc : (jsIntTruthy ws.windowId && focusOk) = true
      · constructor
        · simpa [stepOp, handleOpenWorkspace, hlk, hfoc] using hinv
        · simp [stepOp, handleOpenWorkspace, hlk, hfoc]
      · have hstep : stepOp (LifecycleOp.openWorkspace k focusOk newW) s
            = ⟨setKey s.workspaces k { ws with windowId := some newW }, s.nextId⟩ := by
          simp [stepOp, handleOpenWorkspace, hlk, hfoc]
        rw [hstep]
        refine ⟨?_, Nat.le_refl _⟩
        intro p hp
        rcases mem_setKey _ _ _ p hp with h | h
        · rw [h]
          exact hinv (k, ws) (lookupWs_some_key_mem s.workspaces k ws hlk)
        · exact hinv p h
  | unsaveWorkspace k =>
    cases hlk : lookupWs s.workspaces k with
    | none =>
      constructor
      · simpa [stepOp, handleUnsaveWorkspace, hlk] using hinv
      · simp [stepOp, handleUnsaveWorkspace, hlk]
    | some ws =>
      have hstep : stepOp (LifecycleOp.unsaveWorkspace k) s
          = ⟨removeKey s.workspaces k, s.nextId⟩ := by
        simp [stepOp, handleUnsaveWorkspace, hlk]
      rw [hstep]
      refine ⟨?_, Nat.le_refl _⟩
      intro p hp
      exact hinv p (List.mem_of_mem_filter hp)
  | renameWorkspace k t =>
    cases hlk : lookupWs s.workspaces k with
    | none =>
      constructor
      · simpa [stepOp, handleRenameWorkspace, hlk] using hinv
      · simp [stepOp, handleRenameWorkspace, hlk]
    | some ws =>
      have hstep : stepOp (LifecycleOp.renameWorkspace k t) s
          = ⟨setKey s.workspaces k { ws with customTitle := some t, title := t },
             s.nextId⟩ := by
        simp [stepOp, handleRenameWorkspace, hlk]
      rw [hstep]
      refine ⟨?_, Nat.le_refl _⟩
      intro p hp
      rcases mem_setKey _ _ _ p hp with h | h
      · rw [h]
        exact hinv (k, ws) (lookupWs_some_key_mem s.workspaces k ws hlk)
      · exact hinv p h
  | updateOrder newOrder =>
    have hkeys : keysOf (stepOp (LifecycleOp.updateOrder newOrder) s).workspaces
        = keysOf s.workspaces := by
      show keysOf (assignUnlisted newOrder (applyListedOrders s.workspaces newOrder 0)
        newOrder.length) = keysOf s.workspaces
      rw [assignUnlisted_keys, applyListedOrders_keys]
    refine ⟨?_, Nat.le_refl _⟩
    intro p hp
    exact keysOf_bound _ s.workspaces s.nextId hkeys hinv p hp
  | importWorkspaces ws n => simp [isImport] at hop

/-- C3 counterexample: the claim lists import among the lifecycle operations,
and an import payload is stored wholesale after only a shape check, so from
the initial store an import of a workspaces map holding id 5 together with
nextId 1 reaches a state where nextId is not greater than the existing id 5;
a second import shows nextId can also decrease (from 1 to 0). -/
theorem nextId_invariant_cex :
    storeInv (⟨[], 1⟩ : Store)
    ∧ runOps [LifecycleOp.importWorkspaces [(5, sampleWs 5)] 1] ⟨[], 1⟩
        = ⟨[(5, sampleWs 5)], 1⟩
    ∧ ¬ storeInv (⟨[(5, sampleWs 5)], 1⟩ : Store)
    ∧ runOps [LifecycleOp.importWorkspaces [] 0] ⟨[], 1⟩ = ⟨[], 0⟩ :=
  ⟨by unfold storeInv; decide, rfl, by unfold storeInv; decide, rfl⟩

/-- C3 amended: over every sequence of the lifecycle operations save, open,
unsave, rename and reorder (import excluded: it replaces the store wholesale
with an unvalidated payload and can break the invariant), a store satisfying
the invariant keeps it, nextId never decreases, and the ids newly assigned by
handleSaveWindow are strictly increasing along the trace and at least the
starting nextId. -/
theorem nextId_invariant (ops : List LifecycleOp) (s : Store)
    (hinv : storeInv s) (hops : ∀ op ∈ ops, isImport op = false) :
    storeInv (runOps ops s)
    ∧ s.nextId ≤ (runOps ops s).nextId
    ∧ (assignedIds ops s).Pairwise (· < ·)
    ∧ (∀ a ∈ assignedIds ops s, s.nextId ≤ a) := by
  induction ops generalizing s with
  | nil =>
    exact ⟨hinv, Nat.le_refl _, List.Pairwise.nil, by simp [assignedIds]⟩
  | cons op rest ih =>
    have hop : isImport op = false := hops op (List.mem_cons_self _ _)
    have hrest : ∀ o ∈ rest, isImport o = false :=
      fun o ho => hops o (List.mem_cons_of_mem _ ho)
    obtain ⟨hinv1, hmono1⟩ := stepOp_preserves op s hop hinv
    obtain ⟨ih1, ih2, ih3, ih4⟩ := ih (stepOp op s) hinv1 hrest
    have hrun : runOps (op :: rest) s = runOps rest (stepOp op s) := rfl
    refine ⟨hrun ▸ ih1, hrun ▸ Nat.le_trans hmono1 ih2, ?_, ?_⟩
    · cases op with
      | saveWindow w tabs groups =>
        by_cases hte : tabs.isEmpty
        · simpa [assignedIds, hte] using ih3
        · have hstep : (stepOp (LifecycleOp.saveWindow w tabs groups) s).nextId
              = s.nextId + 1 := by
            simp [stepOp, handleSaveWindow, hte]
          have ha : assignedIds (LifecycleOp.saveWindow w tabs groups :: rest) s
              = s.nextId
                :: assignedIds rest (stepOp (LifecycleOp.saveWindow w tabs groups) s) := by
            simp [assignedIds, hte]
          rw [ha]
          refine List.pairwise_cons.mpr ⟨?_, ih3⟩
          intro b hb
          have hb2 := ih4 b hb
          omega
      | openWorkspace k f nw => simpa [assignedIds] using ih3
      | unsaveWorkspace k => simpa [assignedIds] using ih3
      | renameWorkspace k t => simpa [assignedIds] using ih3
      | updateOrder l => simpa [assignedIds] using ih3
      | importWorkspaces wsl n => simpa [assignedIds] using ih3
    · cases op with
      | saveWindow w tabs groups =>
        by_cases hte : tabs.isEmpty
        · intro a ha
          have ha2 : a ∈ assignedIds rest (stepOp (LifecycleOp.saveWindow w tabs groups) s) := by
            simpa [assignedIds, hte] using ha
          exact Nat.le_trans hmono1 (ih4 a ha2)
        · intro a ha
          have ha2 : a = s.nextId
              ∨ a ∈ assignedIds rest (stepOp (LifecycleOp.saveWindow w tabs groups) s) := by
            simpa [assignedIds, hte] using ha
          rcases ha2 with h | h
          · exact h ▸ Nat.le_refl _
          · exact Nat.le_trans hmono1 (ih4 a h)
      | openWorkspace k f nw =>
        intro a ha
        exact Nat.le_trans hmono1 (ih4 a (by simpa [assignedIds] using ha))
      | unsaveWorkspace k =>
        intro a ha
        exact Nat.le_trans hmono1 (ih4 a (by simpa [assignedIds] using ha))
      | renameWorkspace k t =>
        intro a ha
        exact Nat.le_trans hmono1 (ih4 a (by simpa [assignedIds] using ha))
      | updateOrder l =>
        intro a ha
        exact Nat.le_trans hmono1 (ih4 a (by simpa [assignedIds] using ha))
      | importWorkspaces wsl n =>
        intro a ha
        exact Nat.le_trans hmono1 (ih4 a (by simpa [assignedIds] using ha))

theorem nextId_invariant_witness :
    storeInv (runOps [LifecycleOp.saveWindow 7 [tabA] [], LifecycleOp.unsaveWorkspace 1,
        LifecycleOp.saveWindow 8 [tabB] []] ⟨[], 1⟩)
    ∧ 1 ≤ (runOps [LifecycleOp.saveWindow 7 [tabA] [], LifecycleOp.unsaveWorkspace 1,
        LifecycleOp.saveWindow 8 [tabB] []] ⟨[], 1⟩).nextId
    ∧ (assignedIds [LifecycleOp.saveWindow 7 [tabA] [], LifecycleOp.unsaveWorkspace 1,
        LifecycleOp.saveWindow 8 [tabB] []] ⟨[], 1⟩).Pairwise (· < ·)
    ∧ (∀ a ∈ assignedIds [LifecycleOp.saveWindow 7 [tabA] [], LifecycleOp.unsaveWorkspace 1,
        LifecycleOp.saveWindow 8 [tabB] []] ⟨[], 1⟩, 1 ≤ a) :=
  nextId_invariant [LifecycleOp.saveWindow 7 [tabA] [], LifecycleOp.unsaveWorkspace 1,
    LifecycleOp.saveWindow 8 [tabB] []] ⟨[], 1⟩ (by unfold storeInv; decide) (by decide)

theorem passesOf_aux (w : Int) (hw : ¬ w < 0) (times : List Nat) (d : Nat)
    (hchain : times.Chain' (fun a b => a < b ∧ b < a + DEBOUNCE_DELAY))
    (hhead : ∀ t0 ∈ times.head?, t0 < d) :
    passesOf ⟨[w], some d⟩ (times.map (fun t => (t, some w))) = [[w]] := by
  induction times generalizing d with
  | nil => rfl
  | cons t rest ih =>
    have htd : t < d := hhead t (by simp)
    have h1 : handleEvent ⟨[w], some d⟩ t (some w)
        = ([], ⟨[w], some (t + DEBOUNCE_DELAY)⟩) := by
      simp [handleEvent, scheduleWorkspaceUpdate, insertPending, Nat.not_le.mpr htd, hw]
    have hstep : passesOf ⟨[w], some d⟩ ((t, some w) :: rest.map (fun t => (t, some w)))
        = (handleEvent ⟨[w], some d⟩ t (some w)).1
          ++ passesOf (handleEvent ⟨[w], some d⟩ t (some w)).2
              (rest.map (fun t => (t, some w))) := rfl
    rw [List.map_cons, hstep, h1]
    rw [List.nil_append]
    obtain ⟨hrel, htail⟩ := List.chain'_cons'.mp hchain
    exact ih (t + DEBOUNCE_DELAY) htail (fun t0 ht0 => (hrel t0 ht0).2)

/-- C9: any sequence of one or more notifications of a valid window id, each
arriving strictly less than the 800ms quiet period after the previous one,
yields exactly one reconciliation pass, which touches that window exactly
once; a notification with an absent or negative window id is a no-op, and
every valid notification inserts the id into the pending set and replaces any
armed timer with a fresh one for the fixed quiet period. -/
theorem debounce_coalescing (w : Int) (hw : ¬ w < 0) (times : List Nat) (hne : times ≠ [])
    (hchain : times.Chain' (fun a b => a < b ∧ b < a + DEBOUNCE_DELAY)) :
    (passesOf ⟨[], none⟩ (times.map (fun t => (t, some w))) = [[w]]
      ∧ List.count w [w] = 1)
    ∧ (∀ (st : SchedState) (now : Nat), scheduleWorkspaceUpdate none now st = st)
    ∧ (∀ (st : SchedState) (now : Nat) (w0 : Int), w0 < 0 →
        scheduleWorkspaceUpdate (some w0) now st = st)
    ∧ (∀ (st : SchedState) (now : Nat) (w0 : Int), ¬ w0 < 0 →
        scheduleWorkspaceUpdate (some w0) now st
          = ⟨insertPending st.pendingUpdates w0, some (now + DEBOUNCE_DELAY)⟩) := by
  refine ⟨⟨?_, by simp⟩, fun st now => rfl,
    fun st now w0 h => by simp [scheduleWorkspaceUpdate, h],
    fun st now w0 h => by simp [scheduleWorkspaceUpdate, h]⟩
  cases times with
  | nil => exact absurd rfl hne
  | cons t rest =>
    have h1 : handleEvent ⟨[], none⟩ t (some w)
        = ([], ⟨[w], some (t + DEBOUNCE_DELAY)⟩) := by
      simp [handleEvent, scheduleWorkspaceUpdate, insertPending, hw]
    have hstep : passesOf ⟨[], none⟩ ((t, some w) :: rest.map (fun t => (t, some w)))
        = (handleEvent ⟨[], none⟩ t (some w)).1
          ++ passesOf (handleEvent ⟨[], none⟩ t (some w)).2
              (rest.map (fun t => (t, some w))) := rfl
    rw [List.map_cons, hstep, h1, List.nil_append]
    obtain ⟨hrel, htail⟩ := List.chain'_cons'.mp hchain
    exact passesOf_aux w hw rest (t + DEBOUNCE_DELAY) htail (fun t0 ht0 => (hrel t0 ht0).2)

theorem debounce_coalescing_witness :
    passesOf ⟨[], none⟩ ([0, 100, 200].map (fun t => (t, some 5))) = [[5]]
    ∧ List.count 5 [(5 : Int)] = 1 :=
  (debounce_coalescing 5 (by decide) [0, 100, 200] (by decide)
    (by simp [List.chain'_cons, List.chain'_singleton, DEBOUNCE_DELAY])).1
